import Mathlib

/-!
Verification development for the chess tournament backend
(`controllers/tournamentController.js`, `controllers/notificationController.js`,
`controllers/walletController.js`, `scripts/migrateFixedPrizes.js`).

The JavaScript code is shallowly embedded: monetary amounts and time instants
are rationals (JS numbers restricted to the values actually produced by the
code paths under study), Mongo documents are Lean structures, the document
store is explicit state, and fallible endpoints return `Except`.
`models/Tournament.js` is not part of the supplied sources; the few model
methods the controllers call (`updateStatusBasedOnTime`,
`isStartingWithinMinutes`) are modelled from the specification and marked as
such in their doc comments.
-/

namespace ChessBackend

/-- Tournament lifecycle status (`status` field of the Tournament model). -/
inductive TStatus
  | upcoming
  | active
  | completed
  | cancelled
deriving DecidableEq

/-- Transaction `type` values used by the tournament controller. -/
inductive TxnType
  | tournamentFunding
  | tournamentEntry
  | tournamentPrize
  | prizePayout
deriving DecidableEq

/-- Transaction `status` values. -/
inductive TxnStatus
  | completed
  | pending
  | failed
deriving DecidableEq

/-- A ledger entry (Transaction document), with the fields the controller reads. -/
structure Txn where
  user : ℕ
  tournament : ℕ
  type : TxnType
  amount : ℚ
  status : TxnStatus
deriving DecidableEq

/-- `prizes.fixed.additional` entry: `{ position, amount }`. -/
structure AdditionalPrize where
  position : ℕ
  amount : ℚ
deriving DecidableEq

/-- `prizes.fixed`: ordered `amounts` array (index 0 is 1st place) plus `additional`. -/
structure FixedPrizes where
  amounts : List ℚ
  additional : List AdditionalPrize
deriving DecidableEq

/-- `prizes.percentage.additional` entry: `{ position, percentage }`. -/
structure AdditionalPct where
  position : ℕ
  percentage : ℚ
deriving DecidableEq

/-- `prizes.percentage`: base pool plus the five keyed rank percentages
(`ranks` holds the `'1st'`..`'5th'` keyed fields) and `additional`. -/
structure PercentagePrizes where
  basePrizePool : ℚ
  ranks : List (String × ℚ)
  additional : List AdditionalPct
deriving DecidableEq

/-- One `prizes.special.specialPrizes` entry. -/
structure SpecialPrize where
  category : String
  amount : ℚ
  isPercentage : Bool
deriving DecidableEq

/-- `prizes.special`. -/
structure SpecialPrizes where
  isFixed : Bool
  basePrizePool : ℚ
  specialPrizes : List SpecialPrize
deriving DecidableEq

/-- `prizeType` field. -/
inductive PrizeType
  | fixed
  | percentage
  | special
deriving DecidableEq

/-- The `prizes` subdocument (one branch is relevant per `prizeType`). -/
structure Prizes where
  fixed : FixedPrizes
  percentage : PercentagePrizes
  special : SpecialPrizes
deriving DecidableEq

/-- One submitted result row `{ userId, position, score }`. -/
structure ResultEntry where
  userId : ℕ
  position : ℕ
  score : ℚ
deriving DecidableEq

/-- A Tournament document, with the fields the controller logic reads and
writes.  `startInstant` is the absolute UTC start instant in milliseconds as
resolved by the clock/timezone resolver (the resolver itself is out of scope
here); `duration` is in milliseconds. -/
structure Tournament where
  id : ℕ
  organizer : ℕ
  status : TStatus
  manualStatusOverride : Bool
  fiveMinuteReminderSent : Bool
  startInstant : ℚ
  duration : ℚ
  participants : List ℕ
  prizeType : PrizeType
  prizes : Prizes
  results : List ResultEntry
  prizesDistributed : Bool
  entryFee : ℚ
deriving DecidableEq

/-! ## Status engine -/

/-- The status that should hold at `now` given the schedule: `upcoming` before
the start instant, `active` from start until start + duration, `completed`
afterwards. -/
def derivedStatus (startInstant duration now : ℚ) : TStatus :=
  if now < startInstant then .upcoming
  else if now < startInstant + duration then .active
  else .completed

/-- Modelled from the spec: `models/Tournament.js` (not under `src/`) defines
`updateStatusBasedOnTime`; per spec section 4.2 the engine is pure, applies
`upcoming → active`, `active → completed` and `upcoming → completed` based on
`now`, never transitions a tournament whose `manualStatusOverride` is true,
and reports whether a write-back is needed. -/
def computeStatus (current : TStatus) (manualOverride : Bool)
    (startInstant duration now : ℚ) : TStatus × Bool :=
  if manualOverride then (current, false)
  else if current = .upcoming ∨ current = .active then
    let s := derivedStatus startInstant duration now
    (s, decide (s ≠ current))
  else (current, false)

/-- Modelled from the spec: the model method `updateStatusBasedOnTime` as the
controllers call it — recompute the status, write it into the document, and
return whether it changed. -/
def updateStatusBasedOnTime (t : Tournament) (now : ℚ) : Tournament × Bool :=
  let r := computeStatus t.status t.manualStatusOverride t.startInstant t.duration now
  ({ t with status := r.1 }, r.2)

/-- Lazy on-read refresh (`getTournament`, tournamentController L627-637):
run `updateStatusBasedOnTime` and persist only when it reports a change. -/
def lazyRefresh (t : Tournament) (now : ℚ) : Tournament :=
  let r := updateStatusBasedOnTime t now
  if r.2 then r.1 else t

/-- The query filter of the status cron job and of
`updateAllTournamentStatuses` (tournamentController L812-815, L1330-1333):
`status ∈ {upcoming, active}` and `manualStatusOverride ≠ true`. -/
def statusCronSelects (t : Tournament) : Bool :=
  decide ((t.status = .upcoming ∨ t.status = .active) ∧ t.manualStatusOverride ≠ true)

/-- Per-tournament step of the periodic status reconciliation
(tournamentController L1341-1347): tournaments matching the filter are
refreshed and saved only when changed; others are left untouched. -/
def statusCronStep (now : ℚ) (t : Tournament) : Tournament :=
  if statusCronSelects t then lazyRefresh t now else t

/-- `updateAllTournamentStatuses` / the 2-minute status cron job over a batch
of tournaments (tournamentController L810-834, L1320-1403). -/
def updateAllTournamentStatuses (now : ℚ) (ts : List Tournament) : List Tournament :=
  ts.map (statusCronStep now)

/-- Time flags computed by `getDetailedTimeInfo`
(tournamentController L539-540, L586-589), using minutes-until values. -/
structure TimeFlags where
  isStartingSoon : Bool
  hasStarted : Bool
  hasEnded : Bool
  isActive : Bool
deriving DecidableEq

/-- `getDetailedTimeInfo`'s flag computation (source L539-540, L586-589):
`minutesUntilStart`/`minutesUntilEnd` are fractional-minute differences. -/
def detailedTimeFlags (startInstant duration now : ℚ) : TimeFlags :=
  let minutesUntilStart := (startInstant - now) / 60000
  let minutesUntilEnd := (startInstant + duration - now) / 60000
  { isStartingSoon := decide (0 < minutesUntilStart ∧ minutesUntilStart ≤ 5)
    hasStarted := decide (minutesUntilStart ≤ 0)
    hasEnded := decide (minutesUntilEnd ≤ 0)
    isActive := decide (minutesUntilStart ≤ 0 ∧ 0 < minutesUntilEnd) }

/-- A concrete manually-overridden tournament, kept in `active` past its end. -/
def overriddenTournament : Tournament :=
  { id := 1
    organizer := 0
    status := .active
    manualStatusOverride := true
    fiveMinuteReminderSent := false
    startInstant := 0
    duration := 300000
    participants := [7]
    prizeType := .fixed
    prizes :=
      { fixed := { amounts := [100], additional := [] }
        percentage := { basePrizePool := 0, ranks := [], additional := [] }
        special := { isFixed := true, basePrizePool := 0, specialPrizes := [] } }
    results := []
    prizesDistributed := false
    entryFee := 0 }

/-! ## Prize schedule normalizer (tournament creation) -/

/-- A raw JS value for a legacy per-rank prize field, as seen through the
`typeof x !== "undefined"` test and `parseFloat`: the key may be absent,
present but unparsable (`parseFloat` yields NaN), or a parsed number. -/
inductive RawVal
  | absent
  | invalid
  | num (q : ℚ)
deriving DecidableEq

/-- The coercion `parseFloat(x) || 0` (source L210): NaN is falsy and becomes
0; a parsed 0 is falsy and becomes the literal 0 (same value); any other
number, including a negative one, passes through. -/
def parseFloatOr0 : RawVal → ℚ
  | .absent => 0
  | .invalid => 0
  | .num q => q

/-- The legacy `prizes.fixed` shape with per-rank keys `'1st'`..`'5th'`. -/
structure LegacyFixedInput where
  first : RawVal
  second : RawVal
  third : RawVal
  fourth : RawVal
  fifth : RawVal

/-- The labels array `['1st','2nd','3rd','4th','5th']` applied to the input
object (source L205). -/
def legacyFields (i : LegacyFixedInput) : List RawVal :=
  [i.first, i.second, i.third, i.fourth, i.fifth]

/-- Legacy-key normalization in `createTournament` (source L205-214): iterate
the labels in rank order and push `parseFloat(v) || 0` only for keys that are
present; absent ranks are skipped, not padded with zeros. -/
def normalizeLegacyFixed (i : LegacyFixedInput) : List ℚ :=
  (legacyFields i).foldl
    (fun acc v => match v with
      | .absent => acc
      | v => acc ++ [parseFloatOr0 v]) []

/-- Characterization helper: a present field contributes its coercion, an
absent field contributes nothing. -/
def presentCoerced : RawVal → Option ℚ
  | .absent => none
  | v => some (parseFloatOr0 v)

/-- A legacy input supplying only `'1st'`, with a negative amount. -/
def negativeLegacyInput : LegacyFixedInput :=
  ⟨.num (-100), .absent, .absent, .absent, .absent⟩

/-- Creation-time total committed prize pool (source L309-336): fixed sums
the whole `amounts` array plus `additional`; percentage commits the base
pool; special sums the special prize amounts when `isFixed`, else the base
pool. -/
def totalPrizePool (prizeType : PrizeType) (pz : Prizes) : ℚ :=
  match prizeType with
  | .fixed => pz.fixed.amounts.sum + (pz.fixed.additional.map (·.amount)).sum
  | .percentage => pz.percentage.basePrizePool
  | .special =>
      if pz.special.isFixed then (pz.special.specialPrizes.map (·.amount)).sum
      else pz.special.basePrizePool

/-! ## Creation-time funding (wallet) -/

/-- Failure modes of the wallet-funded creation flow. -/
inductive CreateError
  | entryFeeExceedsPool
  | insufficientFunds
  | persistFailed
deriving DecidableEq

/-- Whether `Tournament.create` persists the document or throws. -/
inductive PersistOutcome
  | ok
  | failure
deriving DecidableEq

/-- Observable outcome of the wallet-funded creation flow: the response, the
organizer's final wallet balance, and whether the tournament document exists. -/
structure CreateOutcome where
  response : Option CreateError
  finalBalance : ℚ
  tournamentSaved : Bool
deriving DecidableEq

/-- The wallet-funding slice of `createTournament` (source L348-474): reject
when the entry fee exceeds the pool (L348-358); reject when the organizer's
balance is below the pool (L371-377); otherwise debit the balance and save
the user (L380-381), then attempt `Tournament.create` (L398-416).  When
persisting throws, the handler returns a 500 response (L456-466) and the
debit is not rolled back. -/
def createTournamentWallet (balance entryFee pool : ℚ)
    (persist : PersistOutcome) : CreateOutcome :=
  if pool < entryFee then ⟨some .entryFeeExceedsPool, balance, false⟩
  else if balance < pool then ⟨some .insufficientFunds, balance, false⟩
  else
    match persist with
    | .ok => ⟨none, balance - pool, true⟩
    | .failure => ⟨some .persistFailed, balance - pool, false⟩

/-! ## Payout calculator (`calculatePrizeDistribution`, source L1067-1157) -/

/-- One payout line `{ userId, position, amount }`. -/
structure PayoutLine where
  userId : ℕ
  position : ℕ
  amount : ℚ
deriving DecidableEq

/-- Stable insertion of a result into a position-sorted list, keeping earlier
equal-position entries first. -/
def insertByPosition (r : ResultEntry) : List ResultEntry → List ResultEntry
  | [] => [r]
  | x :: xs =>
      if x.position ≤ r.position then x :: insertByPosition r xs
      else r :: x :: xs

/-- `results.sort((a, b) => a.position - b.position)` (source L1072): a stable
sort ascending by position. -/
def sortResults (rs : List ResultEntry) : List ResultEntry :=
  rs.foldl (fun acc r => insertByPosition r acc) []

/-- `Math.round(x)`: round half towards positive infinity. -/
def jsRound (q : ℚ) : ℤ := ⌊q + 1 / 2⌋

/-- `Math.round(amount * 100) / 100` (source L1126, L1149). -/
def roundTo2 (q : ℚ) : ℚ := (jsRound (q * 100) : ℚ) / 100

/-- The standard fixed-prize loop (source L1082-1093): iterate
`i < sortedResults.length && i < 5`, read `parseFloat(amounts[i]) || 0`
(out-of-range reads give 0), and push a line only when the amount is
strictly positive. -/
def fixedStandardLines (amounts : List ℚ) (sorted : List ResultEntry) :
    List PayoutLine :=
  (sorted.take 5).enum.filterMap fun ir =>
    let amount := (amounts.get? ir.1).getD 0
    if 0 < amount then some ⟨ir.2.userId, ir.1 + 1, amount⟩ else none

/-- The additional fixed-prize loop (source L1096-1109): for each `additional`
entry whose position matches an actual result, emit its amount when strictly
positive. -/
def fixedAdditionalLines (additional : List AdditionalPrize)
    (sorted : List ResultEntry) : List PayoutLine :=
  additional.filterMap fun ap =>
    match sorted.find? (fun r => r.position == ap.position) with
    | some r =>
        if (0 : ℚ) < ap.amount then some ⟨r.userId, ap.position, ap.amount⟩
        else none
    | none => none

/-- The percentage loop (source L1114-1129): for the first
`min(len(results), 5)` ranks, amount = base × percentage / 100, rounded to 2
decimals, dropped unless strictly positive.  Percentages are looked up by the
`'1st'`..`'5th'` keys. -/
def positionLabels : List String := ["1st", "2nd", "3rd", "4th", "5th"]

def percentageLines (pct : PercentagePrizes) (sorted : List ResultEntry) :
    List PayoutLine :=
  (sorted.take 5).enum.filterMap fun ir =>
    let percentage := (pct.ranks.lookup (positionLabels.getD ir.1 "")).getD 0
    let amount := pct.basePrizePool * percentage / 100
    if 0 < amount then some ⟨ir.2.userId, ir.1 + 1, roundTo2 amount⟩ else none

/-- The special-prize loop (source L1133-1153): every special prize goes to
the first-place result (`sortedResults[0]`; the submit handler guarantees the
results array is non-empty), percentage-flagged prizes take a share of the
base pool, and zero lines are dropped. -/
def specialLines (sp : SpecialPrizes) (sorted : List ResultEntry) :
    List PayoutLine :=
  match sorted.head? with
  | none => []
  | some r =>
      sp.specialPrizes.filterMap fun p =>
        let amount :=
          if p.isPercentage then sp.basePrizePool * p.amount / 100 else p.amount
        if 0 < amount then some ⟨r.userId, 1, roundTo2 amount⟩ else none

/-- `calculatePrizeDistribution` (source L1067-1157). -/
def calculatePrizeDistribution (t : Tournament) (results : List ResultEntry) :
    List PayoutLine :=
  let sorted := sortResults results
  match t.prizeType with
  | .fixed =>
      fixedStandardLines t.prizes.fixed.amounts sorted
        ++ fixedAdditionalLines t.prizes.fixed.additional sorted
  | .percentage => percentageLines t.prizes.percentage sorted
  | .special => specialLines t.prizes.special sorted

/-- The fixed-prize standard distribution as the spec words it (spec section
4.4): one line of amount `amounts[rank-1]` for each of the first
min(len(results), len(amounts)) ranks — no cap at 5 ranks — dropping
non-positive amounts. -/
def specFixedStandardLines (amounts : List ℚ) (sorted : List ResultEntry) :
    List PayoutLine :=
  sorted.enum.filterMap fun ir =>
    match amounts.get? ir.1 with
    | some a => if 0 < a then some ⟨ir.2.userId, ir.1 + 1, a⟩ else none
    | none => none

/-- A fixed-prize tournament with six prize amounts. -/
def sixPrizeTournament : Tournament :=
  { overriddenTournament with
      status := .completed
      manualStatusOverride := false
      participants := [1, 2, 3, 4, 5, 6]
      prizes :=
        { fixed := { amounts := [100, 100, 100, 100, 100, 100], additional := [] }
          percentage := { basePrizePool := 0, ranks := [], additional := [] }
          special := { isFixed := true, basePrizePool := 0, specialPrizes := [] } } }

/-- Six ranked results for the six participants. -/
def sixResults : List ResultEntry :=
  [⟨1, 1, 0⟩, ⟨2, 2, 0⟩, ⟨3, 3, 0⟩, ⟨4, 4, 0⟩, ⟨5, 5, 0⟩, ⟨6, 6, 0⟩]

/-! ## Results submission (`submitTournamentResults`, source L973-1062) -/

/-- Failure modes of the results-submission endpoint. -/
inductive SubmitError
  | notOrganizer
  | invalidResults
deriving DecidableEq

/-- The mutable store the prize endpoints touch: the tournament document,
every user's wallet balance, and the transaction ledger.  (Every user id a
payout references is assumed to exist in the store; `User.findById` misses
are out of scope.) -/
structure AppState where
  tournament : Tournament
  balances : ℕ → ℚ
  txns : List Txn

/-- The submit-path credit loop (source L1005-1042): for each payout line
with positive amount, increment the user's wallet and append a completed
`tournament_prize` ledger entry.  The per-winner notification attempt is
fire-and-forget (its errors are caught at L1034-1040) and does not touch the
store. -/
def creditPrizes (st : AppState) : List PayoutLine → AppState
  | [] => st
  | p :: rest =>
      let s :=
        if 0 < p.amount then
          { st with
              balances := Function.update st.balances p.userId
                (st.balances p.userId + p.amount)
              txns := st.txns ++ [⟨p.userId, st.tournament.id,
                .tournamentPrize, p.amount, .completed⟩] }
        else st
      creditPrizes s rest

/-- `submitTournamentResults` (source L973-1062): organizer check and results
shape check, then credit every line of `calculatePrizeDistribution`, then set
`status = completed` and store the results.  There is no check of
`metadata.prizesDistributed`, of existing prize ledger entries, or of the
current status before crediting. -/
def submitTournamentResults (st : AppState) (actor : ℕ)
    (results : List ResultEntry) : Except SubmitError AppState :=
  if actor ≠ st.tournament.organizer then .error .notOrganizer
  else if results = [] then .error .invalidResults
  else
    let st1 := creditPrizes st (calculatePrizeDistribution st.tournament results)
    .ok { st1 with
      tournament :=
        { st1.tournament with status := .completed, results := results } }

/-- Endpoint effect on the store: an error response leaves it unchanged. -/
def runSubmit (st : AppState) (actor : ℕ) (results : List ResultEntry) :
    AppState :=
  match submitTournamentResults st actor results with
  | .ok s => s
  | .error _ => st

/-- Total amount the submit-path credit loop adds to user `u`'s wallet. -/
def submitCreditOf : List PayoutLine → ℕ → ℚ
  | [], _ => 0
  | p :: rest, u =>
      (if 0 < p.amount ∧ p.userId = u then p.amount else 0)
        + submitCreditOf rest u

/-! ## Distribution endpoint (`distributeTournamentPrizes`, source L1408-1679) -/

/-- `String(position).replace(/\D/g, '')` (source L1491). -/
def digitsOf (s : String) : List Char := s.data.filter Char.isDigit

/-- Decimal value of a digit list. -/
def digitsVal (cs : List Char) : ℕ :=
  cs.foldl (fun n c => n * 10 + (c.toNat - '0'.toNat)) 0

/-- `parseInt(String(position).replace(/\D/g, ''), 10)`: `none` models NaN
(no digits at all). -/
def parsePos (s : String) : Option ℕ :=
  if digitsOf s = [] then none else some (digitsVal (digitsOf s))

/-- Category match in the special branch (source L1530-1532):
`sp.category === position` or case-insensitive substring containment. -/
def categoryMatches (category position : String) : Bool :=
  category == position
    || (category.data.map Char.toLower).tails.any
        (fun t => (position.data.map Char.toLower).isPrefixOf t)

/-- Fixed branch of the per-entry amount (source L1488-1511): resolve the
numeric rank, read `parseFloat(amounts[rank-1]) || 0`, and fall back to the
matching `additional` entry when that is not strictly positive; with no
numeric rank, attempt the `additional` lookup by digit string. -/
def fixedPrizeAmount (fx : FixedPrizes) (position : String) : ℚ :=
  match parsePos position with
  | some n =>
      let arrAmount : ℚ :=
        if n = 0 then 0 else (fx.amounts.get? (n - 1)).getD 0
      if 0 < arrAmount then arrAmount
      else
        ((fx.additional.find? (fun ap => ap.position == n)).map
          (·.amount)).getD 0
  | none =>
      ((fx.additional.find?
          (fun ap => toString ap.position == String.mk (digitsOf position))).map
        (·.amount)).getD 0

/-- Percentage branch (source L1512-1526): the keyed rank percentage when
truthy, else the matching `additional` percentage; amount =
base × percentage / 100. -/
def percentagePrizeAmount (pct : PercentagePrizes) (position : String) : ℚ :=
  let keyed := (pct.ranks.lookup position).getD 0
  let percentage :=
    if keyed ≠ 0 then keyed
    else
      ((pct.additional.find?
          (fun ap => toString ap.position == String.mk (digitsOf position))).map
        (·.percentage)).getD 0
  pct.basePrizePool * percentage / 100

/-- Special branch (source L1527-1544). -/
def specialPrizeAmount (sp : SpecialPrizes) (position : String) : ℚ :=
  match sp.specialPrizes.find? (fun p => categoryMatches p.category position) with
  | some p =>
      if sp.isFixed || !p.isPercentage then p.amount
      else sp.basePrizePool * p.amount / 100
  | none => 0

/-- One requested payout `{ userId, position, customAmount? }`; positions are
labels such as `'1st'` or a special category name. -/
structure PrizeDistEntry where
  userId : ℕ
  position : String
  customAmount : Option ℚ
deriving DecidableEq

/-- The per-entry amount including the custom override (source L1483-1549):
a truthy positive `customAmount` replaces the schedule-derived amount
entirely. -/
def calculatedPrizeAmount (t : Tournament) (p : PrizeDistEntry) : ℚ :=
  let base :=
    match t.prizeType with
    | .fixed => fixedPrizeAmount t.prizes.fixed p.position
    | .percentage => percentagePrizeAmount t.prizes.percentage p.position
    | .special => specialPrizeAmount t.prizes.special p.position
  match p.customAmount with
  | some c => if 0 < c then c else base
  | none => base

/-- Failure modes of the distribution endpoint, in source order. -/
inductive DistError
  | emptyDistribution
  | notOrganizer
  | notCompleted
  | alreadyDistributed
  | invalidParticipants
  | invalidPrizeAmountFor (userId : ℕ)
deriving DecidableEq

/-- One computed payout of the distribution endpoint. -/
structure CalcPrize where
  userId : ℕ
  position : String
  amount : ℚ
deriving DecidableEq

/-- The calculation loop (source L1480-1566): compute each amount in request
order and reject the whole request at the first non-positive amount. -/
def calcPrizes (t : Tournament) :
    List PrizeDistEntry → Except DistError (List CalcPrize)
  | [] => .ok []
  | p :: rest =>
      let a := calculatedPrizeAmount t p
      if a ≤ 0 then .error (.invalidPrizeAmountFor p.userId)
      else
        match calcPrizes t rest with
        | .error e => .error e
        | .ok cs => .ok (⟨p.userId, p.position, a⟩ :: cs)

/-- Whether the underlying notification request (`createNotification` and the
delivery services in the notification controller) succeeds or throws. -/
inductive NotifyOutcome
  | delivered
  | deliveryFailed
deriving DecidableEq

/-- The fallible notification request itself. -/
def requestWinnerNotification : NotifyOutcome → Except String Unit
  | .delivered => .ok ()
  | .deliveryFailed => .error "delivery failed"

/-- `notifyTournamentWinner` (notification controller, part_001 L1111-1132):
the whole body is wrapped in try/catch; on any error it logs and returns
null.  It never rejects, so awaiting it cannot abort the caller's
transaction. -/
def notifyTournamentWinner (o : NotifyOutcome) : Option Unit :=
  match requestWinnerNotification o with
  | .ok u => some u
  | .error _ => none

/-- The completed `prize_payout` ledger entry appended per payout
(source L1594-1615). -/
def payoutTxn (tournamentId : ℕ) (c : CalcPrize) : Txn :=
  ⟨c.userId, tournamentId, .prizePayout, c.amount, .completed⟩

/-- Credit one winner and append the ledger entry (source L1578-1615). -/
def applyPrize (st : AppState) (c : CalcPrize) : AppState :=
  { st with
      balances := Function.update st.balances c.userId
        (st.balances c.userId + c.amount)
      txns := st.txns ++ [payoutTxn st.tournament.id c] }

/-- The transaction loop (source L1576-1634): per winner, credit the wallet,
append the ledger entry, and await the winner notification, whose result (an
Option, never a thrown error) is collected and cannot abort the loop. -/
def applyPrizesGo (st : AppState) (outs : List NotifyOutcome) (i : ℕ) :
    List CalcPrize → AppState × List (Option Unit)
  | [] => (st, [])
  | c :: rest =>
      let st1 := applyPrize st c
      let n := notifyTournamentWinner (outs.getD i .delivered)
      let r := applyPrizesGo st1 outs (i + 1) rest
      (r.1, n :: r.2)

/-- The whole transaction loop from the first payout. -/
def applyPrizes (st : AppState) (cs : List CalcPrize)
    (outs : List NotifyOutcome) : AppState × List (Option Unit) :=
  applyPrizesGo st outs 0 cs

/-- The replay-guard predicate (source L1452-1463): a completed
`prize_payout` transaction for this tournament. -/
def isCompletedPayout (tournamentId : ℕ) (tx : Txn) : Bool :=
  decide (tx.tournament = tournamentId ∧ tx.type = .prizePayout
    ∧ tx.status = .completed)

/-- `distributeTournamentPrizes` (source L1408-1679): validation in source
order — non-empty request, organizer, completed status, replay guard by
ledger scan, roster membership — then the amount calculation, then the
atomic transaction crediting wallets, appending ledger entries and setting
`metadata.prizesDistributed`. -/
def distributeTournamentPrizes (st : AppState) (actor : ℕ)
    (dist : List PrizeDistEntry) (outs : List NotifyOutcome) :
    Except DistError AppState :=
  if dist = [] then .error .emptyDistribution
  else if actor ≠ st.tournament.organizer then .error .notOrganizer
  else if st.tournament.status ≠ .completed then .error .notCompleted
  else if st.txns.any (isCompletedPayout st.tournament.id) then
    .error .alreadyDistributed
  else if dist.any (fun p => !(st.tournament.participants.contains p.userId)) then
    .error .invalidParticipants
  else
    match calcPrizes st.tournament dist with
    | .error e => .error e
    | .ok cs =>
        let st1 := (applyPrizes st cs outs).1
        .ok { st1 with
          tournament := { st1.tournament with prizesDistributed := true } }

/-- Endpoint effect on the store: an error response leaves it unchanged. -/
def runDistribute (st : AppState) (actor : ℕ) (dist : List PrizeDistEntry)
    (outs : List NotifyOutcome) : AppState :=
  match distributeTournamentPrizes st actor dist outs with
  | .ok s => s
  | .error _ => st

/-- The store after a successful distribution of computed payouts `cs`. -/
def finalState (st : AppState) (cs : List CalcPrize) : AppState :=
  let st1 := cs.foldl applyPrize st
  { st1 with tournament := { st1.tournament with prizesDistributed := true } }

/-- Total amount the computed payouts credit to user `u`. -/
def creditOf (cs : List CalcPrize) (u : ℕ) : ℚ :=
  ((cs.filter (fun c => c.userId == u)).map (·.amount)).sum

/-- A completed fixed-prize tournament with one participant and a clean
ledger, ready for distribution. -/
def distState : AppState :=
  { tournament := { overriddenTournament with
        status := .completed
        manualStatusOverride := false }
    balances := fun _ => 0
    txns := [] }

/-- A distribution request paying first place to participant 7. -/
def distRequest : List PrizeDistEntry := [⟨7, "1st", none⟩]

/-- The payout the endpoint computes for `distRequest` against `distState`. -/
def distCalc : List CalcPrize := [⟨7, "1st", 100⟩]

/-- A completed tournament whose committed prize pool is zero. -/
def emptyPrizeState : AppState :=
  { tournament := { overriddenTournament with
        status := .completed
        manualStatusOverride := false
        prizes :=
          { fixed := { amounts := [], additional := [] }
            percentage := { basePrizePool := 0, ranks := [], additional := [] }
            special :=
              { isFixed := true, basePrizePool := 0, specialPrizes := [] } } }
    balances := fun _ => 0
    txns := [] }

/-- A completed tournament that has already had its prizes distributed
(`metadata.prizesDistributed = true`), with a clean ledger. -/
def resubmitState : AppState :=
  { tournament := { overriddenTournament with
        status := .completed
        manualStatusOverride := false
        prizesDistributed := true }
    balances := fun _ => 0
    txns := [] }

/-- A single first-place result for participant 7. -/
def resubmitResults : List ResultEntry := [⟨7, 1, 0⟩]

/-- A completed tournament whose ledger already holds a completed
`prize_payout` entry. -/
def alreadyPaidState : AppState :=
  { tournament := { overriddenTournament with
        status := .completed
        manualStatusOverride := false }
    balances := fun _ => 0
    txns := [⟨7, 1, .prizePayout, 100, .completed⟩] }

/-! ## Five-minute reminder (timer at source L1236-1258, cron at L1267-1316) -/

/-- Reminder-relevant state of one tournament plus delivery counters:
`reminderSent` is the persisted `fiveMinuteReminderSent` flag, `deliveries`
counts every delivered reminder notification, and `cronDeliveries` only the
ones delivered by the periodic check. -/
structure ReminderState where
  reminderSent : Bool
  deliveries : ℕ
  cronDeliveries : ℕ
deriving DecidableEq

/-- Events that can deliver the reminder.  The one-shot timer scheduled at
creation (source L1236-1247) fires `notifyTournamentStartingInFiveMinutes`
without reading or writing `fiveMinuteReminderSent`.  A cron tick
(source L1277-1305) delivers only for an upcoming tournament whose flag is
still false and which starts within five minutes, and then persists the
flag. -/
inductive ReminderEvent
  | timerFire
  | cronTick (upcoming withinFive : Bool)
deriving DecidableEq

/-- One event step.  The `upcoming` and `withinFive` guards are the cron
query filter and `isStartingWithinMinutes(5)`; the latter is a model method
of `models/Tournament.js` (not under `src/`), abstracted here as a boolean
input of the tick. -/
def stepReminder (s : ReminderState) : ReminderEvent → ReminderState
  | .timerFire => { s with deliveries := s.deliveries + 1 }
  | .cronTick upcoming withinFive =>
      if upcoming && !s.reminderSent && withinFive then
        { reminderSent := true
          deliveries := s.deliveries + 1
          cronDeliveries := s.cronDeliveries + 1 }
      else s

/-- A trace of interleaved timer and cron events for one tournament. -/
def runReminder (s : ReminderState) (evs : List ReminderEvent) :
    ReminderState :=
  evs.foldl stepReminder s

/-- The realizable interleaving behind the counterexample: the creation-time
timer fires at the reminder instant (start − 5 minutes), and the next cron
tick — at most a minute later, so still inside the five-minute window with
the tournament still upcoming — finds `fiveMinuteReminderSent` still false. -/
def doubleReminderTrace : List ReminderEvent :=
  [.timerFire, .cronTick true true]

lemma derivedStatus_eq_upcoming (s d n : ℚ) :
    derivedStatus s d n = .upcoming ↔ n < s := by
  unfold derivedStatus
  split_ifs with h1 h2 <;> simp_all

lemma derivedStatus_eq_active (s d n : ℚ) :
    derivedStatus s d n = .active ↔ s ≤ n ∧ n < s + d := by
  unfold derivedStatus
  split_ifs with h1 h2 <;> simp_all

lemma derivedStatus_eq_completed (s d n : ℚ) (hd : 0 ≤ d) :
    derivedStatus s d n = .completed ↔ s + d ≤ n := by
  unfold derivedStatus
  split_ifs with h1 h2 <;> simp_all
  linarith

lemma computeStatus_no_override (current : TStatus) (s d n : ℚ)
    (hcur : current = .upcoming ∨ current = .active) :
    (computeStatus current false s d n).1 = derivedStatus s d n := by
  simp [computeStatus, hcur]

lemma computeStatus_stable (current : TStatus) (s d n : ℚ)
    (hcur : current = .upcoming ∨ current = .active) :
    computeStatus (computeStatus current false s d n).1 false s d n
      = ((computeStatus current false s d n).1, false) := by
  rw [computeStatus_no_override current s d n hcur]
  rcases h : derivedStatus s d n <;> simp [computeStatus, h]

/-- C5: for valid inputs (non-overridden tournament in a reconcilable status,
non-negative duration), `computeStatus` yields `upcoming` iff `now < start`,
`active` iff `start ≤ now < start + duration`, `completed` iff
`now ≥ start + duration`; these statuses agree with `getDetailedTimeInfo`'s
flags; the function is pure (same inputs, same output), and recomputing from
an already-correct status reports no change. -/
theorem claim_C5 (current : TStatus) (startInstant duration now : ℚ)
    (hcur : current = .upcoming ∨ current = .active)
    (hdur : 0 ≤ duration) :
    ((computeStatus current false startInstant duration now).1 = .upcoming
        ↔ now < startInstant)
  ∧ ((computeStatus current false startInstant duration now).1 = .active
        ↔ startInstant ≤ now ∧ now < startInstant + duration)
  ∧ ((computeStatus current false startInstant duration now).1 = .completed
        ↔ startInstant + duration ≤ now)
  ∧ ((computeStatus current false startInstant duration now).1 = .upcoming
        ↔ (detailedTimeFlags startInstant duration now).hasStarted = false)
  ∧ ((computeStatus current false startInstant duration now).1 = .active
        ↔ (detailedTimeFlags startInstant duration now).isActive = true)
  ∧ ((computeStatus current false startInstant duration now).1 = .completed
        ↔ (detailedTimeFlags startInstant duration now).hasEnded = true)
  ∧ computeStatus current false startInstant duration now
      = computeStatus current false startInstant duration now
  ∧ computeStatus (computeStatus current false startInstant duration now).1
      false startInstant duration now
      = ((computeStatus current false startInstant duration now).1, false) := by
  have hup := derivedStatus_eq_upcoming startInstant duration now
  have hac := derivedStatus_eq_active startInstant duration now
  have hco := derivedStatus_eq_completed startInstant duration now hdur
  have hstart : (detailedTimeFlags startInstant duration now).hasStarted = false
      ↔ now < startInstant := by
    simp only [detailedTimeFlags, decide_eq_false_iff_not, not_le]
    constructor
    · intro h
      nlinarith
    · intro h
      exact div_pos (by linarith) (by norm_num)
  have hendf : (detailedTimeFlags startInstant duration now).hasEnded = true
      ↔ startInstant + duration ≤ now := by
    simp only [detailedTimeFlags, decide_eq_true_eq]
    constructor
    · intro h
      nlinarith
    · intro h
      have : startInstant + duration - now ≤ 0 := by linarith
      have h60 : (0:ℚ) < 60000 := by norm_num
      exact div_nonpos_of_nonpos_of_nonneg this (le_of_lt h60)
  have hactf : (detailedTimeFlags startInstant duration now).isActive = true
      ↔ startInstant ≤ now ∧ now < startInstant + duration := by
    simp only [detailedTimeFlags, decide_eq_true_eq]
    have h60 : (0:ℚ) < 60000 := by norm_num
    constructor
    · rintro ⟨h1, h2⟩
      constructor
      · nlinarith
      · nlinarith
    · rintro ⟨h1, h2⟩
      constructor
      · exact div_nonpos_of_nonpos_of_nonneg (by linarith) (le_of_lt h60)
      · exact div_pos (by linarith) h60
  have hstable := computeStatus_stable current startInstant duration now hcur
  have hcs := computeStatus_no_override current startInstant duration now hcur
  rw [hcs]
  rw [hcs] at hstable
  refine ⟨hup, hac, hco, ?_, ?_, ?_, rfl, hstable⟩
  · rw [hup, hstart]
  · rw [hac, hactf]
  · rw [hco, hendf]

/-- Witness for C5 at a concrete input (upcoming tournament, 5-minute
duration, evaluated after its end). -/
theorem claim_C5_witness :
    ((TStatus.upcoming = TStatus.upcoming ∨ TStatus.upcoming = TStatus.active)
      ∧ (0:ℚ) ≤ 300000)
  ∧ (((computeStatus .upcoming false 0 300000 400000).1 = .upcoming
        ↔ (400000:ℚ) < 0)
    ∧ ((computeStatus .upcoming false 0 300000 400000).1 = .active
        ↔ (0:ℚ) ≤ 400000 ∧ (400000:ℚ) < 0 + 300000)
    ∧ ((computeStatus .upcoming false 0 300000 400000).1 = .completed
        ↔ (0:ℚ) + 300000 ≤ 400000)
    ∧ ((computeStatus .upcoming false 0 300000 400000).1 = .upcoming
        ↔ (detailedTimeFlags 0 300000 400000).hasStarted = false)
    ∧ ((computeStatus .upcoming false 0 300000 400000).1 = .active
        ↔ (detailedTimeFlags 0 300000 400000).isActive = true)
    ∧ ((computeStatus .upcoming false 0 300000 400000).1 = .completed
        ↔ (detailedTimeFlags 0 300000 400000).hasEnded = true)
    ∧ computeStatus .upcoming false 0 300000 400000
        = computeStatus .upcoming false 0 300000 400000
    ∧ computeStatus (computeStatus .upcoming false 0 300000 400000).1
        false 0 300000 400000
        = ((computeStatus .upcoming false 0 300000 400000).1, false)) :=
  ⟨⟨Or.inl rfl, by decide⟩,
    claim_C5 .upcoming 0 300000 400000 (Or.inl rfl) (by decide)⟩

/-- C6: a tournament with `manualStatusOverride = true` is never
auto-transitioned: `computeStatus` returns the persisted status with
`changed = false`, the lazy on-read refresh leaves the document untouched,
the periodic job's query filter does not even select it, and the batch update
returns it unchanged. -/
theorem claim_C6 (t : Tournament) (now : ℚ) (h : t.manualStatusOverride = true) :
    computeStatus t.status t.manualStatusOverride t.startInstant t.duration now
      = (t.status, false)
  ∧ lazyRefresh t now = t
  ∧ statusCronSelects t = false
  ∧ statusCronStep now t = t
  ∧ updateAllTournamentStatuses now [t] = [t] := by
  have hcs : computeStatus t.status t.manualStatusOverride t.startInstant
      t.duration now = (t.status, false) := by
    simp [computeStatus, h]
  have hlazy : lazyRefresh t now = t := by
    simp [lazyRefresh, updateStatusBasedOnTime, hcs]
  have hsel : statusCronSelects t = false := by
    simp [statusCronSelects, h]
  have hstep : statusCronStep now t = t := by
    simp [statusCronStep, hsel]
  exact ⟨hcs, hlazy, hsel, hstep, by simp [updateAllTournamentStatuses, hstep]⟩

/-- Witness for C6 at a concrete overridden tournament well past its end. -/
theorem claim_C6_witness :
    (overriddenTournament.manualStatusOverride = true)
  ∧ (computeStatus overriddenTournament.status
        overriddenTournament.manualStatusOverride
        overriddenTournament.startInstant overriddenTournament.duration 900000
        = (overriddenTournament.status, false)
    ∧ lazyRefresh overriddenTournament 900000 = overriddenTournament
    ∧ statusCronSelects overriddenTournament = false
    ∧ statusCronStep 900000 overriddenTournament = overriddenTournament
    ∧ updateAllTournamentStatuses 900000 [overriddenTournament]
        = [overriddenTournament]) :=
  ⟨rfl, claim_C6 overriddenTournament 900000 rfl⟩

lemma foldl_push_filterMap (l : List RawVal) (acc : List ℚ) :
    l.foldl (fun acc v => match v with
      | RawVal.absent => acc
      | v => acc ++ [parseFloatOr0 v]) acc = acc ++ l.filterMap presentCoerced := by
  induction l generalizing acc with
  | nil => simp
  | cons v rest ih =>
    cases v <;> simp [ih, presentCoerced, List.filterMap_cons]

/-- C7 counterexample: the claim says every amount coerces to a non-negative
number, but `parseFloat(x) || 0` preserves negative values: the legacy input
with `'1st' = -100` normalizes to `[-100]`, which contains a negative amount. -/
theorem claim_C7_counterexample :
    normalizeLegacyFixed negativeLegacyInput = [-100]
  ∧ (-100 : ℚ) ∈ normalizeLegacyFixed negativeLegacyInput
  ∧ (-100 : ℚ) < 0 := by
  have h : normalizeLegacyFixed negativeLegacyInput = [-100] := rfl
  exact ⟨h, by rw [h]; exact List.mem_singleton.mpr rfl, by norm_num⟩

/-- C7 (amended): legacy normalization appends exactly the coercions of the
ranks explicitly present, in rank order, with no padding of absent ranks (so
`{'1st':1000}` yields `amounts = [1000]` of length 1); a present unparsable
value coerces to 0; but a negative present value is preserved as negative,
not clamped to a non-negative number. -/
theorem claim_C7_amended (i : LegacyFixedInput) :
    normalizeLegacyFixed i = (legacyFields i).filterMap presentCoerced
  ∧ normalizeLegacyFixed ⟨.num 1000, .absent, .absent, .absent, .absent⟩ = [1000]
  ∧ parseFloatOr0 .invalid = 0
  ∧ parseFloatOr0 (.num (-100)) = -100 := by
  refine ⟨?_, rfl, rfl, rfl⟩
  simpa using foldl_push_filterMap (legacyFields i) []

/-- C3 counterexample: organizer balance 100, pool 50, and `Tournament.create`
fails after the wallet debit.  The tournament is not persisted yet the final
balance is 50, not the restored 100: the debit and the persistence are not
atomic, contradicting the claim. -/
theorem claim_C3_counterexample :
    (createTournamentWallet 100 0 50 .failure).tournamentSaved = false
  ∧ (createTournamentWallet 100 0 50 .failure).finalBalance = 50
  ∧ (50 : ℚ) ≠ 100 := by
  refine ⟨by norm_num [createTournamentWallet], ?_, by norm_num⟩
  norm_num [createTournamentWallet]

/-- C3 (amended): in the wallet-funded creation flow the debit precedes
persistence and is not rolled back: with the entry fee within the pool and
sufficient funds, a successful persist leaves balance − pool with the
tournament saved, while a failed persist still leaves balance − pool with no
tournament saved (the organizer is not refunded and an error is returned). -/
theorem claim_C3_amended (balance entryFee pool : ℚ)
    (hfee : entryFee ≤ pool) (hbal : pool ≤ balance) :
    createTournamentWallet balance entryFee pool .ok
      = ⟨none, balance - pool, true⟩
  ∧ createTournamentWallet balance entryFee pool .failure
      = ⟨some .persistFailed, balance - pool, false⟩ := by
  unfold createTournamentWallet
  rw [if_neg (not_lt.mpr hfee), if_neg (not_lt.mpr hbal)]
  rw [if_neg (not_lt.mpr hfee), if_neg (not_lt.mpr hbal)]
  exact ⟨rfl, rfl⟩

/-- Witness for the amended C3 at balance 100, entry fee 0, pool 50. -/
theorem claim_C3_amended_witness :
    ((0 : ℚ) ≤ 50 ∧ (50 : ℚ) ≤ 100)
  ∧ (createTournamentWallet 100 0 50 .ok = ⟨none, 100 - 50, true⟩
    ∧ createTournamentWallet 100 0 50 .failure
        = ⟨some .persistFailed, 100 - 50, false⟩) :=
  ⟨⟨by decide, by decide⟩, claim_C3_amended 100 0 50 (by decide) (by decide)⟩

/-- C4: the code caps the standard fixed-prize loop at 5 ranks
(`i < sortedResults.length && i < 5`, source L1082) even though the repo's
own migration PR states the hard-coded 5-limit was removed from distribution
logic and the `amounts` array may be any length.  With six positive amounts
and six ranked results the code emits only 5 payout lines, while the
documented behavior (first min(len(results), len(amounts)) ranks) gives 6;
the sixth-place amount `amounts[5] = 100` is silently never paid. -/
theorem claim_C4_bug :
    (calculatePrizeDistribution sixPrizeTournament sixResults).length = 5
  ∧ (specFixedStandardLines sixPrizeTournament.prizes.fixed.amounts
      (sortResults sixResults)).length = 6
  ∧ sixPrizeTournament.prizes.fixed.amounts.length = 6
  ∧ sixResults.length = 6 := by
  refine ⟨?_, ?_, rfl, rfl⟩ <;> decide

lemma applyPrizesGo_fst (cs : List CalcPrize) (outs : List NotifyOutcome)
    (i : ℕ) (st : AppState) :
    (applyPrizesGo st outs i cs).1 = cs.foldl applyPrize st := by
  induction cs generalizing st i with
  | nil => rfl
  | cons c rest ih => simp [applyPrizesGo, List.foldl_cons, ih]

lemma foldl_applyPrize_tournament (cs : List CalcPrize) (st : AppState) :
    (cs.foldl applyPrize st).tournament = st.tournament := by
  induction cs generalizing st with
  | nil => rfl
  | cons c rest ih => simp [List.foldl_cons, ih, applyPrize]

lemma foldl_applyPrize_txns (cs : List CalcPrize) (st : AppState) :
    (cs.foldl applyPrize st).txns
      = st.txns ++ cs.map (payoutTxn st.tournament.id) := by
  induction cs generalizing st with
  | nil => simp
  | cons c rest ih =>
      rw [List.foldl_cons, ih]
      simp [applyPrize, List.append_assoc]

lemma foldl_applyPrize_balances (cs : List CalcPrize) (st : AppState) (u : ℕ) :
    (cs.foldl applyPrize st).balances u = st.balances u + creditOf cs u := by
  induction cs generalizing st with
  | nil => simp [creditOf]
  | cons c rest ih =>
      rw [List.foldl_cons, ih]
      by_cases h : c.userId = u
      · subst h
        simp [applyPrize, creditOf, Function.update_apply, add_assoc]
      · simp [applyPrize, creditOf, Function.update_apply, h,
          Ne.symm h]

lemma finalState_tournament (st : AppState) (cs : List CalcPrize) :
    (finalState st cs).tournament
      = { st.tournament with prizesDistributed := true } := by
  simp [finalState, foldl_applyPrize_tournament]

lemma finalState_txns (st : AppState) (cs : List CalcPrize) :
    (finalState st cs).txns
      = st.txns ++ cs.map (payoutTxn st.tournament.id) := by
  simp [finalState, foldl_applyPrize_txns]

lemma finalState_balances (st : AppState) (cs : List CalcPrize) (u : ℕ) :
    (finalState st cs).balances u = st.balances u + creditOf cs u := by
  simp [finalState, foldl_applyPrize_balances]

lemma calcPrizes_ne_nil (t : Tournament) (p : PrizeDistEntry)
    (rest : List PrizeDistEntry) (cs : List CalcPrize)
    (h : calcPrizes t (p :: rest) = .ok cs) : cs ≠ [] := by
  simp only [calcPrizes] at h
  split at h
  · cases h
  · rcases hm : calcPrizes t rest with e | cs'
    · rw [hm] at h
      cases h
    · rw [hm] at h
      cases h
      simp

lemma distribute_ok (st : AppState) (actor : ℕ) (dist : List PrizeDistEntry)
    (outs : List NotifyOutcome) (cs : List CalcPrize)
    (hne : dist ≠ [])
    (hactor : actor = st.tournament.organizer)
    (hstatus : st.tournament.status = .completed)
    (hscan : st.txns.any (isCompletedPayout st.tournament.id) = false)
    (hpart : dist.any
      (fun p => !(st.tournament.participants.contains p.userId)) = false)
    (hcalc : calcPrizes st.tournament dist = .ok cs) :
    distributeTournamentPrizes st actor dist outs = .ok (finalState st cs) := by
  unfold distributeTournamentPrizes
  rw [if_neg hne, if_neg (by simp [hactor]), if_neg (by simp [hstatus]),
    if_neg (by rw [hscan]; exact Bool.false_ne_true),
    if_neg (by rw [hpart]; exact Bool.false_ne_true), hcalc]
  simp [applyPrizes, applyPrizesGo_fst, finalState]

lemma distribute_already (st : AppState) (actor : ℕ)
    (dist : List PrizeDistEntry) (outs : List NotifyOutcome)
    (hne : dist ≠ [])
    (hactor : actor = st.tournament.organizer)
    (hstatus : st.tournament.status = .completed)
    (hscan : st.txns.any (isCompletedPayout st.tournament.id) = true) :
    distributeTournamentPrizes st actor dist outs
      = .error .alreadyDistributed := by
  unfold distributeTournamentPrizes
  rw [if_neg hne, if_neg (by simp [hactor]), if_neg (by simp [hstatus]),
    if_pos (by simp [hscan])]

lemma creditPrizes_tournament (lines : List PayoutLine) (st : AppState) :
    (creditPrizes st lines).tournament = st.tournament := by
  induction lines generalizing st with
  | nil => rfl
  | cons p rest ih =>
      show (creditPrizes _ rest).tournament = _
      rw [ih]
      split_ifs <;> rfl

lemma creditPrizes_balances (lines : List PayoutLine) (st : AppState) (u : ℕ) :
    (creditPrizes st lines).balances u
      = st.balances u + submitCreditOf lines u := by
  induction lines generalizing st with
  | nil => simp [creditPrizes, submitCreditOf]
  | cons p rest ih =>
      show (creditPrizes _ rest).balances u = _
      rw [ih, submitCreditOf]
      by_cases hp : 0 < p.amount
      · by_cases hu : p.userId = u
        · subst hu
          simp [hp, Function.update_apply, add_assoc]
        · simp [hp, Function.update_apply, hu, Ne.symm hu]
      · simp [hp]

lemma submit_ok_tournament (st : AppState) (actor : ℕ)
    (results : List ResultEntry)
    (hactor : actor = st.tournament.organizer) (hres : results ≠ []) :
    (runSubmit st actor results).tournament
      = { st.tournament with status := .completed, results := results } := by
  unfold runSubmit submitTournamentResults
  rw [if_neg (by simp [hactor]), if_neg hres]
  simp [creditPrizes_tournament]

lemma submit_ok_balances (st : AppState) (actor : ℕ)
    (results : List ResultEntry) (u : ℕ)
    (hactor : actor = st.tournament.organizer) (hres : results ≠ []) :
    (runSubmit st actor results).balances u
      = st.balances u
        + submitCreditOf (calculatePrizeDistribution st.tournament results) u := by
  unfold runSubmit submitTournamentResults
  rw [if_neg (by simp [hactor]), if_neg hres]
  simp [creditPrizes_balances]

/-- C2: a first call of the distribution endpoint from a clean state (no
completed `prize_payout` ledger entries) with valid arguments succeeds,
crediting each user exactly the sum of that user's computed payout lines;
an identical second call from the resulting state fails with the
already-distributed error and leaves the store unchanged. -/
theorem claim_C2 (st : AppState) (dist : List PrizeDistEntry)
    (outs outs2 : List NotifyOutcome) (cs : List CalcPrize)
    (hne : dist ≠ [])
    (hstatus : st.tournament.status = .completed)
    (hscan : st.txns.any (isCompletedPayout st.tournament.id) = false)
    (hpart : dist.any
      (fun p => !(st.tournament.participants.contains p.userId)) = false)
    (hcalc : calcPrizes st.tournament dist = .ok cs) :
    distributeTournamentPrizes st st.tournament.organizer dist outs
      = .ok (finalState st cs)
  ∧ (∀ u, (finalState st cs).balances u = st.balances u + creditOf cs u)
  ∧ distributeTournamentPrizes (finalState st cs) st.tournament.organizer dist
      outs2 = .error .alreadyDistributed
  ∧ runDistribute (finalState st cs) st.tournament.organizer dist outs2
      = finalState st cs := by
  have hok := distribute_ok st st.tournament.organizer dist outs cs hne rfl
    hstatus hscan hpart hcalc
  have hcs_ne : cs ≠ [] := by
    rcases dist with _ | ⟨p, rest⟩
    · exact absurd rfl hne
    · exact calcPrizes_ne_nil st.tournament p rest cs hcalc
  have hscan2 : (finalState st cs).txns.any
      (isCompletedPayout (finalState st cs).tournament.id) = true := by
    rw [finalState_txns, finalState_tournament]
    rcases cs with _ | ⟨c, cs'⟩
    · exact absurd rfl hcs_ne
    · simp [List.any_append, isCompletedPayout, payoutTxn]
  have halready := distribute_already (finalState st cs)
    st.tournament.organizer dist outs2 hne
    (by rw [finalState_tournament])
    (by rw [finalState_tournament]; exact hstatus) hscan2
  refine ⟨hok, fun u => finalState_balances st cs u, halready, ?_⟩
  simp [runDistribute, halready]

/-- Witness for C2 on the concrete completed tournament. -/
theorem claim_C2_witness :
    (distRequest ≠ []
      ∧ distState.tournament.status = .completed
      ∧ distState.txns.any (isCompletedPayout distState.tournament.id) = false
      ∧ distRequest.any
          (fun p => !(distState.tournament.participants.contains p.userId))
          = false
      ∧ calcPrizes distState.tournament distRequest = .ok distCalc)
  ∧ (distributeTournamentPrizes distState distState.tournament.organizer
        distRequest [] = .ok (finalState distState distCalc)
    ∧ (∀ u, (finalState distState distCalc).balances u
        = distState.balances u + creditOf distCalc u)
    ∧ distributeTournamentPrizes (finalState distState distCalc)
        distState.tournament.organizer distRequest []
        = .error .alreadyDistributed
    ∧ runDistribute (finalState distState distCalc)
        distState.tournament.organizer distRequest []
        = finalState distState distCalc) :=
  ⟨⟨by decide, rfl, rfl, by decide, rfl⟩,
    claim_C2 distState distRequest [] [] distCalc (by decide) rfl rfl
      (by decide) rfl⟩

/-- C8: the committed outcome of the distribution endpoint — response,
balances, ledger entries and the distributed flag — is identical whatever
the notification outcomes are, because `notifyTournamentWinner` catches every
delivery error internally and returns null instead of rejecting; the failure
is never surfaced to the caller. -/
theorem claim_C8 :
    (∀ (st : AppState) (actor : ℕ) (dist : List PrizeDistEntry)
        (outs1 outs2 : List NotifyOutcome),
      distributeTournamentPrizes st actor dist outs1
        = distributeTournamentPrizes st actor dist outs2)
  ∧ notifyTournamentWinner .deliveryFailed = none
  ∧ notifyTournamentWinner .delivered = some () := by
  refine ⟨?_, rfl, rfl⟩
  intro st actor dist outs1 outs2
  unfold distributeTournamentPrizes
  split_ifs <;> try rfl
  rcases h : calcPrizes st.tournament dist with e | cs <;>
    simp [h, applyPrizes, applyPrizesGo_fst]

/-- C10: an entry carrying `customAmount = c > 0` is paid exactly `c`,
replacing whatever the prize schedule derives, and nothing bounds `c` by the
committed prize pool: even when `c` exceeds the pool the distribution
succeeds and credits `c`. -/
theorem claim_C10 (st : AppState) (u : ℕ) (pos : String) (c : ℚ)
    (outs : List NotifyOutcome)
    (hc : 0 < c)
    (hbig : totalPrizePool st.tournament.prizeType st.tournament.prizes < c)
    (hstatus : st.tournament.status = .completed)
    (hscan : st.txns.any (isCompletedPayout st.tournament.id) = false)
    (hpart : st.tournament.participants.contains u = true) :
    calculatedPrizeAmount st.tournament ⟨u, pos, some c⟩ = c
  ∧ distributeTournamentPrizes st st.tournament.organizer
      [⟨u, pos, some c⟩] outs = .ok (finalState st [⟨u, pos, c⟩])
  ∧ (finalState st [⟨u, pos, c⟩]).balances u = st.balances u + c := by
  have hamt : calculatedPrizeAmount st.tournament ⟨u, pos, some c⟩ = c := by
    simp [calculatedPrizeAmount, hc]
  have hcalc : calcPrizes st.tournament [⟨u, pos, some c⟩]
      = .ok [⟨u, pos, c⟩] := by
    simp only [calcPrizes, hamt]
    rw [if_neg (not_le.mpr hc)]
  refine ⟨hamt,
    distribute_ok st _ _ outs _ (by simp) rfl hstatus hscan
      (by simp only [List.any_cons, List.any_nil, hpart, Bool.not_true,
        Bool.or_false]) hcalc, ?_⟩
  rw [finalState_balances]
  simp [creditOf]

/-- Witness for C10: a 5000 custom payout against a zero prize pool. -/
theorem claim_C10_witness :
    ((0 : ℚ) < 5000
      ∧ totalPrizePool emptyPrizeState.tournament.prizeType
          emptyPrizeState.tournament.prizes < 5000
      ∧ emptyPrizeState.tournament.status = .completed
      ∧ emptyPrizeState.txns.any
          (isCompletedPayout emptyPrizeState.tournament.id) = false
      ∧ emptyPrizeState.tournament.participants.contains 7 = true)
  ∧ (calculatedPrizeAmount emptyPrizeState.tournament ⟨7, "1st", some 5000⟩
        = 5000
    ∧ distributeTournamentPrizes emptyPrizeState
        emptyPrizeState.tournament.organizer [⟨7, "1st", some 5000⟩] []
        = .ok (finalState emptyPrizeState [⟨7, "1st", 5000⟩])
    ∧ (finalState emptyPrizeState [⟨7, "1st", 5000⟩]).balances 7
        = emptyPrizeState.balances 7 + 5000) :=
  ⟨⟨by decide,
      by simp [totalPrizePool, emptyPrizeState, overriddenTournament],
      rfl, rfl, by decide⟩,
    claim_C10 emptyPrizeState 7 "1st" 5000 [] (by decide)
      (by simp [totalPrizePool, emptyPrizeState, overriddenTournament])
      rfl rfl (by decide)⟩

/-- C1 counterexample: the claim says no execution path credits prize
payouts a second time for the same tournament, with
`metadata.prizesDistributed` gating re-entry.  But `submitTournamentResults`
never consults the flag or the ledger: from a state whose flag is already
true, each submission credits participant 7 again — one prize ledger entry
and +100 after the first call, two entries and +200 after the second. -/
theorem claim_C1_counterexample :
    resubmitState.tournament.prizesDistributed = true
  ∧ ((runSubmit resubmitState 0 resubmitResults).txns.filter
      (fun tx => tx.type == TxnType.tournamentPrize)).length = 1
  ∧ ((runSubmit (runSubmit resubmitState 0 resubmitResults) 0
        resubmitResults).txns.filter
      (fun tx => tx.type == TxnType.tournamentPrize)).length = 2
  ∧ (runSubmit resubmitState 0 resubmitResults).balances 7 = 100
  ∧ (runSubmit (runSubmit resubmitState 0 resubmitResults) 0
      resubmitResults).balances 7 = 200 := by
  have hL : calculatePrizeDistribution resubmitState.tournament
      resubmitResults = [⟨7, 1, 100⟩] := by decide
  have hT : (runSubmit resubmitState 0 resubmitResults).tournament
      = { resubmitState.tournament with
          status := .completed, results := resubmitResults } :=
    submit_ok_tournament resubmitState 0 resubmitResults rfl (by decide)
  have hL2 : calculatePrizeDistribution
      { resubmitState.tournament with
          status := TStatus.completed, results := resubmitResults }
      resubmitResults = [⟨7, 1, 100⟩] := by decide
  have b1 : (runSubmit resubmitState 0 resubmitResults).balances 7 = 100 := by
    rw [submit_ok_balances resubmitState 0 resubmitResults 7 rfl (by decide),
      hL]
    show (0 : ℚ) + _ = 100
    norm_num [submitCreditOf]
  have b2 : (runSubmit (runSubmit resubmitState 0 resubmitResults) 0
      resubmitResults).balances 7 = 200 := by
    rw [submit_ok_balances _ 0 resubmitResults 7 (by rw [hT]; rfl) (by decide),
      hT, hL2, b1]
    norm_num [submitCreditOf]
  exact ⟨rfl, by decide, by decide, b1, b2⟩

/-- C1 (amended): the distribution endpoint alone distributes at most once —
whenever a completed `prize_payout` ledger entry exists for the tournament
(the actual guard, rather than `metadata.prizesDistributed`), no call of
`distributeTournamentPrizes` can succeed; the results-submission path carries
no such guard. -/
theorem claim_C1_amended (st : AppState) (actor : ℕ)
    (dist : List PrizeDistEntry) (outs : List NotifyOutcome)
    (hscan : st.txns.any (isCompletedPayout st.tournament.id) = true) :
    ∀ st', distributeTournamentPrizes st actor dist outs ≠ .ok st' := by
  intro st' h
  unfold distributeTournamentPrizes at h
  by_cases h1 : dist = []
  · rw [if_pos h1] at h
    cases h
  · rw [if_neg h1] at h
    by_cases h2 : actor ≠ st.tournament.organizer
    · rw [if_pos h2] at h
      cases h
    · rw [if_neg h2] at h
      by_cases h3 : st.tournament.status ≠ .completed
      · rw [if_pos h3] at h
        cases h
      · rw [if_neg h3, if_pos hscan] at h
        cases h

/-- Witness for the amended C1: with a payout already on the ledger, the
endpoint cannot succeed. -/
theorem claim_C1_amended_witness :
    alreadyPaidState.txns.any
      (isCompletedPayout alreadyPaidState.tournament.id) = true
  ∧ distributeTournamentPrizes alreadyPaidState 0 distRequest []
      ≠ .ok alreadyPaidState :=
  ⟨by decide,
    claim_C1_amended alreadyPaidState 0 distRequest [] (by decide)
      alreadyPaidState⟩

/-- C9 counterexample: the claim says flag plus one-shot timer guarantee at
most one reminder under any interleaving, but the timer neither checks nor
sets the persisted flag: after the timer fires the flag is still false, so
the following cron tick delivers again — two deliveries in one trace. -/
theorem claim_C9_counterexample :
    (runReminder ⟨false, 0, 0⟩ doubleReminderTrace).deliveries = 2
  ∧ (runReminder ⟨false, 0, 0⟩ [ReminderEvent.timerFire]).reminderSent
      = false := by
  exact ⟨rfl, rfl⟩

lemma runReminder_cron_bound (evs : List ReminderEvent) (s : ReminderState) :
    (runReminder s evs).cronDeliveries
      ≤ s.cronDeliveries + (if s.reminderSent then 0 else 1) := by
  induction evs generalizing s with
  | nil =>
      cases h : s.reminderSent <;> simp [runReminder, h]
  | cons e rest ih =>
      have step : runReminder s (e :: rest)
          = runReminder (stepReminder s e) rest := rfl
      rw [step]
      refine le_trans (ih (stepReminder s e)) ?_
      cases e with
      | timerFire => simp [stepReminder]
      | cronTick a b =>
          cases a <;> cases b <;> cases hs : s.reminderSent <;>
            simp [stepReminder, hs]

/-- C9 (amended): the periodic check alone delivers the reminder at most
once per tournament — once the persisted flag is set no further cron tick
delivers — but the creation-time timer is outside this guarantee, since it
neither consults nor sets the flag. -/
theorem claim_C9_amended (s : ReminderState) (evs : List ReminderEvent)
    (h : s.reminderSent = false) (h0 : s.cronDeliveries = 0) :
    (runReminder s evs).cronDeliveries ≤ 1 := by
  have hb := runReminder_cron_bound evs s
  rw [h, h0] at hb
  simpa using hb

/-- Witness for the amended C9 on the double-delivery trace itself: even
there, the cron path delivers only once. -/
theorem claim_C9_amended_witness :
    ((⟨false, 0, 0⟩ : ReminderState).reminderSent = false
      ∧ (⟨false, 0, 0⟩ : ReminderState).cronDeliveries = 0)
  ∧ (runReminder ⟨false, 0, 0⟩ doubleReminderTrace).cronDeliveries ≤ 1 :=
  ⟨⟨rfl, rfl⟩, claim_C9_amended ⟨false, 0, 0⟩ doubleReminderTrace rfl rfl⟩

end ChessBackend
